/-
  Verification of the S3GW-UI client-side object listing/mutation engine.

  Shallow embedding of:
  - src/app/functions.helper.ts (`toBytes`);
  - src/frontend/src/app/pages/user/object/object-datatable-page/
    object-datatable-page.component.ts (`loadData`, `doDelete`, `doUpload`,
    `onExpandedRowsChange`, `onActionMenu`, `datatableActions`);
  together with collaborators that are declared but whose source is not part of
  this tree (s3-bucket.service, rxjs-ui-helper.service, the generic datatable);
  those are modelled from the specification and marked as such.

  Modelling conventions: JavaScript IEEE-754 doubles are modelled by exact
  rationals; JS objects used as string-keyed dictionaries are modelled by
  association lists that keep insertion order (property assignment overwrites
  in place, new keys are appended); `undefined`/`null` become `Option`.
-/
import Mathlib

namespace S3GW

/-! ## Data model (spec section 3; component source S3ObjectVersion) -/

/-- The row type tag of an object-version record (`Type` in the source;
`Type` is reserved in Lean, hence the trailing tick). -/
inductive S3ObjType where
  | OBJECT
  | FOLDER
deriving DecidableEq, Repr

/-- One object-version record as delivered by `listObjectVersions`
(`S3ObjectVersion` in the component source). `VersionId` is optional;
`none` models an absent/null id. -/
structure S3ObjectVersion where
  Key : String := ("")
  VersionId : Option String := none
  IsLatest : Bool := false
  IsDeleted : Bool := false
  Size : Nat := 0
  LastModified : String := ("")
  ETag : String := ("")
  Type' : S3ObjType := S3ObjType.OBJECT
deriving DecidableEq, Repr

/-! ### Association-list dictionaries

JS `Record<string, T>` objects are modelled as ordered association lists. -/

/-- Lookup in an association list (models JS property read / `_.has`). -/
def alookup {α : Type} (k : String) : List (String × α) → Option α
  | [] => none
  | p :: ps => if p.1 = k then some p.2 else alookup k ps

/-- Property assignment on a JS object: overwrite in place if the key is
present, otherwise append at the end. -/
def aupsert {α : Type} (k : String) (v : α) : List (String × α) → List (String × α)
  | [] => [(k, v)]
  | p :: ps => if p.1 = k then (k, v) :: ps else p :: aupsert k v ps

/-! ## C2 — version-count index built by one reload -/

/-- Modelled from the spec: the literal "coalesced/no-version" sentinel the
storage API uses for unversioned buckets (spec section 4.3 step 2 and the
design note on the version-id sentinel). The s3-bucket service source is not
part of this tree. -/
def versionIdSentinel : String := ("null")

/-- Modelled from the spec: `isObjectVersionID` of the frontend
`functions.helper.ts`, which is not part of this tree (only its import and
call site are). Per the spec a version id counts iff it is a non-sentinel
value: not null/absent and — in strict mode, as used by `loadData` — not the
storage API's coalesced/no-version sentinel. -/
def isObjectVersionID (versionId : Option String) (strict : Bool) : Bool :=
  match versionId with
  | none => false
  | some s => !strict || s != versionIdSentinel

/-- `this.objectNumVersions[key] = count + 1` (component line 422-423):
in-place update of an existing entry. -/
def bumpCount (m : List (String × Nat)) (k : String) : List (String × Nat) :=
  m.map (fun p => if p.1 = k then (p.1, p.2 + 1) else p)

/-- From `loadData` (component lines 416-425): for every received record,
initialize the key's count to 0 if unseen, then increment it when the record
carries a strict (non-sentinel) version id. -/
def buildNumVersionsFrom (m : List (String × Nat)) :
    List S3ObjectVersion → List (String × Nat)
  | [] => m
  | o :: os =>
    let m1 := if (alookup o.Key m).isNone then m ++ [(o.Key, 0)] else m
    let m2 := if isObjectVersionID o.VersionId true then bumpCount m1 o.Key else m1
    buildNumVersionsFrom m2 os

/-- The version-count index after one reload over `objects`
(`this.objectNumVersions` starts empty at the top of `loadData`). -/
def buildNumVersions (objects : List S3ObjectVersion) : List (String × Nat) :=
  buildNumVersionsFrom [] objects

/-- Claim side of C2: a record counts for key `k` iff it belongs to `k` and
its `VersionId` is present, non-null and not the sentinel. -/
def countsForKey (k : String) (o : S3ObjectVersion) : Bool :=
  o.Key == k && o.VersionId != none && o.VersionId != some versionIdSentinel

/-! ## C3 — delete batch construction

From `doDelete` (frontend component, lines 659-717). -/

/-- The service delimiter. Modelled from the spec (s3-bucket.service is not
part of this tree): the default delimiter is `/`. -/
def delimiter : String := ("/")

/-- One remote delete call issued by the batch: either
`deleteObjectByPrefix(bucket, prefixWithDelimiter, allVersions)` or
`deleteObject(bucket, key, versionId, allVersions)`. -/
inductive DeleteCall where
  | byPfx (bucket : String) (pfx : String) (allVersions : Bool)
  | single (bucket : String) (key : String) (versionId : Option String) (allVersions : Bool)
deriving DecidableEq, Repr

/-- The `allVersions` flag carried by a delete call. -/
def DeleteCall.allVersionsOf : DeleteCall → Bool
  | .byPfx _ _ a => a
  | .single _ _ _ a => a

/-- The one call the source builds for one selected row (body of the
`_.forEach` switch in `doDelete`): a FOLDER row becomes one prefix delete
over the folder key suffixed with the delimiter; an OBJECT row becomes one
single-object delete with no explicit version id. -/
def deleteCallFor (bid : String) (allVersions : Bool) (item : S3ObjectVersion) : DeleteCall :=
  match item.Type' with
  | .FOLDER => DeleteCall.byPfx bid (item.Key ++ delimiter) allVersions
  | .OBJECT => DeleteCall.single bid item.Key none allVersions

/-- From `doDelete`'s confirmed callback (lines 667-686): the ordered list of
remote calls built from the selection, with the single `allVersions` boolean
chosen in the confirmation step applied to every item. -/
def doDeleteSources (bid : String) (allVersions : Bool) (items : List S3ObjectVersion) :
    List DeleteCall :=
  items.foldl
    (fun sources item =>
      match item.Type' with
      | .FOLDER => sources ++ [DeleteCall.byPfx bid (item.Key ++ delimiter) allVersions]
      | .OBJECT => sources ++ [DeleteCall.single bid item.Key none allVersions])
    []

/-! ## C4 — reload after the delete batch settles -/

/-- The result of one settled delete operation. -/
inductive SettleOutcome where
  | ok
  | failed
deriving DecidableEq, Repr

/-- Events observed by `doDelete`'s subscription. -/
inductive DeleteEvent where
  | settled (outcome : SettleOutcome)
  | completed
deriving DecidableEq, Repr

/-- Modelled from the spec: `rxjsUiHelperService.concat` (rxjs-ui-helper
service, not part of this tree) runs the delete operations strictly
sequentially, emits one per-item notification as each operation settles and,
on full completion — all operations settled, regardless of individual failure
— completes the stream (spec section 4.4, Delete). -/
def concatDeleteEvents (outcomes : List SettleOutcome) : List DeleteEvent :=
  outcomes.map DeleteEvent.settled ++ [DeleteEvent.completed]

/-- From `doDelete`'s subscription (lines 705-707): the only handler is
`complete`, which triggers `loadData()` once; per-item notifications do not
touch the listing. This counts the reloads triggered by an event stream. -/
def deleteReloads (events : List DeleteEvent) : Nat :=
  events.foldl (fun n e => match e with | .completed => n + 1 | .settled _ => n) 0

/-! ## C5 — upload orchestration

From `doUpload` (frontend component, lines 605-657). -/

/-- One `{loaded, total}` progress notification of the upload stream. -/
structure UploadProgress where
  loaded : Nat
  total : Nat
deriving DecidableEq, Repr

/-- How the upload stream ends: completion, or a stream-level error carrying
the error's message. -/
inductive UploadTerminal where
  | completed
  | errored (msg : String)
deriving DecidableEq, Repr

/-- A user-visible notification issued through the notification service. -/
inductive Notif where
  | success (text : String)
  | failure (text : String)
deriving DecidableEq, Repr

/-- `'{{ total }} object(s) have been successfully uploaded.'` interpolated. -/
def uploadAllMsg (total : Nat) : String :=
  toString total ++ (" object(s) have been successfully uploaded.")

/-- `'{{ loaded }} of {{ total }} object(s) have been successfully uploaded.'`
interpolated. -/
def uploadSomeMsg (loaded total : Nat) : String :=
  toString loaded ++ (" of ") ++ toString total ++
    (" object(s) have been successfully uploaded.")

/-- `'Failed to upload the objects: {{ error }}'` interpolated. -/
def uploadFailMsg (msg : String) : String :=
  ("Failed to upload the objects: ") ++ msg

/-- What one run of the upload orchestrator produced. -/
structure UploadOutcome where
  lastLoaded : Nat
  notifs : List Notif
  reloads : Nat
deriving DecidableEq, Repr

/-- From `doUpload`: `loaded` starts at 0 and each `next` notification
overwrites it with `progress.loaded`; on `complete` the success notification
compares `loaded` with the original file count (all vs partial message) and
the listing is reloaded; on `error` a single error notification carries the
error's message and nothing else happens — the error callback returns
normally, so no exception escapes the orchestrator. -/
def doUploadRun (fileCount : Nat) (progressEvents : List UploadProgress)
    (terminal : UploadTerminal) : UploadOutcome :=
  let loaded := progressEvents.foldl (fun _ p => p.loaded) 0
  match terminal with
  | .completed =>
    { lastLoaded := loaded
      notifs := [Notif.success
        (if loaded = fileCount then uploadAllMsg fileCount
         else uploadSomeMsg loaded fileCount)]
      reloads := 1 }
  | .errored msg =>
    { lastLoaded := loaded
      notifs := [Notif.failure (uploadFailMsg msg)]
      reloads := 0 }

/-- Modelled from the spec: `uploadObjects` (s3-bucket.service, not part of
this tree) uploads the files sequentially as one logical stream, emitting
`{loaded, total}` after each file; a file that throws aborts the remaining
uploads and errors the stream with that error (spec section 4.4, Upload).
`failAt = some (j, msg)` makes the `j`-th file (1-based) throw `msg`. -/
def uploadStream (total : Nat) (failAt : Option (Nat × String)) :
    List UploadProgress × UploadTerminal :=
  match failAt with
  | none => ((List.range total).map (fun i => ⟨i + 1, total⟩), UploadTerminal.completed)
  | some (j, msg) =>
    ((List.range (j - 1)).map (fun i => ⟨i + 1, total⟩), UploadTerminal.errored msg)

/-! ## C1 — display row set produced by one reload

From `loadData` (frontend component, lines 401-454): the handler for one
`next` notification of `listObjectVersions` filters the received records to
`IsLatest && !IsDeleted` and, when the "show deleted" flag is set, appends the
records with `IsLatest && IsDeleted`; the accumulated row list had been reset
to `[]` at the start of the reload, so after a single notification the row set
equals the value computed here. -/
def loadDataRows (showDeletedObjects : Bool) (objects : List S3ObjectVersion) :
    List S3ObjectVersion :=
  let newObjects := objects.filter (fun o => o.IsLatest && !o.IsDeleted)
  let newObjects :=
    if showDeletedObjects then
      newObjects ++ objects.filter (fun o => o.IsLatest && o.IsDeleted)
    else newObjects
  newObjects

/-- The display row set as the spec's words state it: latest non-deleted
records in input order, followed — only when "show deleted" is enabled — by
the latest deleted records in input order (refinement side of C1). -/
def displayRowSetSpec (showDeleted : Bool) (objects : List S3ObjectVersion) :
    List S3ObjectVersion :=
  (objects.filter (fun o => o.IsLatest && !o.IsDeleted)) ++
    (if showDeleted then objects.filter (fun o => o.IsLatest && o.IsDeleted) else [])

/-- Spec section 8 scenario, key A: latest, not deleted. -/
def recA : S3ObjectVersion :=
  { Key := ("a.txt"), VersionId := some ("v1"), IsLatest := true, IsDeleted := false, Size := 1 }

/-- Spec section 8 scenario: an older (non-latest) version of key A. -/
def recA2 : S3ObjectVersion := { Key := ("a.txt"), VersionId := some ("v2") }

/-- Spec section 8 scenario: another older (non-latest) version of key A. -/
def recA3 : S3ObjectVersion := { Key := ("a.txt"), VersionId := some ("v3") }

/-- Spec section 8 scenario, key B: latest delete marker. -/
def recB : S3ObjectVersion :=
  { Key := ("b.txt"), VersionId := some ("v4"), IsLatest := true, IsDeleted := true }

/-- Spec section 8 scenario: the mixed version list. -/
def mixedVersionList : List S3ObjectVersion := [recA, recA2, recA3, recB]

/-! ## C6/C7 — expanded-row attribute cache

From `onExpandedRowsChange` (frontend component, lines 525-594). The two
formatting collaborators used there — `bytesToSize` (floating-point, spec
section 4.1) and the locale date pipe (Angular, not part of this tree) — are
abstracted as function parameters `fmt` and `dateFmt`: the claims only state
WHICH converter is applied to which field, not its internals. -/

/-- `_.trim(s, '"')`: strip all leading and trailing occurrences of `c`. -/
def trimChar (c : Char) (s : String) : String :=
  String.mk (((s.toList.dropWhile (fun x => x = c)).reverse.dropWhile
    (fun x => x = c)).reverse)

/-- One `getObjectAttributes(bucket, key, versionId)` call. -/
structure FetchCall where
  bucket : String
  key : String
  versionId : Option String
deriving DecidableEq, Repr

/-- A merged attribute record as stored in `objectAttrsCache` (the source
keeps a dynamic `Record<string, any>`; these are the fields it reads and
writes). -/
structure AttrRecord where
  Key : String := ("")
  VersionId : Option String := none
  IsLatest : Bool := false
  IsDeleted : Bool := false
  Size : String := ("")
  LastModified : String := ("")
  ETag : String := ("")
  Type' : S3ObjType := S3ObjType.OBJECT
  ObjectLockMode : String := ("")
  ObjectLockRetainUntilDate : String := ("")
  ObjectLockLegalHoldStatus : String := ("")
  ContentType : String := ("")
  TagSet : List (String × String) := []
  NumVersions : Nat := 0
deriving DecidableEq, Repr

/-- The raw result of one `getObjectAttributes` call (optional lock and tag
fields may be absent from the remote response). -/
structure S3ObjectAttributes where
  Key : String := ("")
  ETag : String := ("")
  ObjectLockMode : Option String := none
  ObjectLockRetainUntilDate : Option String := none
  ObjectLockLegalHoldStatus : Option String := none
  ContentType : String := ("")
  TagSet : Option (List (String × String)) := none
deriving DecidableEq, Repr

/-- The locally synthesized cache entry for a delete-marker row (component
lines 540-553): `_.merge({}, object, {...})` — the row's own fields overlaid
with the formatted size, locale-formatted date, quote-stripped ETag,
defaulted lock fields, empty tag set and the version count from the index. -/
def synthAttr (fmt : Nat → String) (dateFmt : String → String)
    (numVersions : String → Nat) (o : S3ObjectVersion) : AttrRecord :=
  { Key := o.Key
    VersionId := o.VersionId
    IsLatest := o.IsLatest
    IsDeleted := o.IsDeleted
    Size := fmt o.Size
    LastModified := dateFmt o.LastModified
    ETag := trimChar '"' o.ETag
    Type' := o.Type'
    ObjectLockMode := ("NONE")
    ObjectLockRetainUntilDate := ("")
    ObjectLockLegalHoldStatus := ("OFF")
    TagSet := []
    NumVersions := numVersions o.Key }

/-- Accumulator of the synchronous scan over the expanded rows:
`objectAttrsCache`, `loadingObjectAttrsKeys` and the attribute-fetch
observables collected into `sources`. -/
structure ExpandScan where
  cache : List (String × AttrRecord)
  loading : List String
  calls : List FetchCall
deriving Repr

/-- The `_.forEach` body of `onExpandedRowsChange` (lines 529-558): rows whose
key is already cached are skipped; a newly-expanded delete-marker row is
cached synthetically with no network call; another newly-expanded row
contributes one `getObjectAttributes` call. -/
def expandScanFrom (fmt : Nat → String) (dateFmt : String → String)
    (numVersions : String → Nat) (bid : String) :
    ExpandScan → List S3ObjectVersion → ExpandScan
  | st, [] => st
  | st, o :: os =>
    let st' :=
      if (alookup o.Key st.cache).isNone then
        if o.IsDeleted then
          { st with
            loading := st.loading ++ [o.Key]
            cache := aupsert o.Key (synthAttr fmt dateFmt numVersions o) st.cache }
        else
          { st with
            loading := st.loading ++ [o.Key]
            calls := st.calls ++ [⟨bid, o.Key, o.VersionId⟩] }
      else st
    expandScanFrom fmt dateFmt numVersions bid st' os

/-- The synchronous phase of one `onExpandedRowsChange` batch, starting from
the current cache (`loadingObjectAttrsKeys` was reset to `[]` on entry). -/
def expandScan (fmt : Nat → String) (dateFmt : String → String)
    (numVersions : String → Nat) (bid : String)
    (cache : List (String × AttrRecord)) (objects : List S3ObjectVersion) : ExpandScan :=
  expandScanFrom fmt dateFmt numVersions bid ⟨cache, [], []⟩ objects

/-- The per-result transformation inside the `forkJoin` subscriber (lines
565-585): when a row with the result's key is among the expanded rows, the
raw attributes are overlaid with the row's formatted size and date, the
quote-stripped ETag, defaulted lock/tag fields, the version count from the
index and the row's deletion state; otherwise the raw record is stored as-is
(absent optional fields landing on the record's defaults). -/
def mergeFetched (fmt : Nat → String) (dateFmt : String → String)
    (numVersions : String → Nat) (objects : List S3ObjectVersion)
    (a : S3ObjectAttributes) : AttrRecord :=
  match objects.find? (fun o => o.Key == a.Key) with
  | some o =>
    { Key := a.Key
      Size := fmt o.Size
      LastModified := dateFmt o.LastModified
      ETag := trimChar '"' a.ETag
      Type' := o.Type'
      ObjectLockMode := a.ObjectLockMode.getD ("NONE")
      ObjectLockRetainUntilDate := dateFmt (a.ObjectLockRetainUntilDate.getD (""))
      ObjectLockLegalHoldStatus := a.ObjectLockLegalHoldStatus.getD ("OFF")
      ContentType := a.ContentType
      TagSet := a.TagSet.getD []
      NumVersions := numVersions o.Key
      IsDeleted := o.IsDeleted }
  | none =>
    { Key := a.Key
      ETag := a.ETag
      ObjectLockMode := a.ObjectLockMode.getD ("")
      ObjectLockRetainUntilDate := a.ObjectLockRetainUntilDate.getD ("")
      ObjectLockLegalHoldStatus := a.ObjectLockLegalHoldStatus.getD ("")
      ContentType := a.ContentType
      TagSet := a.TagSet.getD [] }

/-- The merge step of one batch (the `forkJoin` subscriber, lines 562-592):
every fetched result is written into the cache under its key, then the cache
is pruned to the keys of the currently-expanded rows
(`_.pickBy` keeping keys with `0 <= _.findIndex(objects, ['Key', key])`). -/
def expandMerge (fmt : Nat → String) (dateFmt : String → String)
    (numVersions : String → Nat) (cache : List (String × AttrRecord))
    (objects : List S3ObjectVersion) (attrs : List S3ObjectAttributes) :
    List (String × AttrRecord) :=
  let merged := attrs.foldl
    (fun c a => aupsert a.Key (mergeFetched fmt dateFmt numVersions objects a) c) cache
  merged.filter (fun p => objects.any (fun o => o.Key == p.1))

/-- One whole `onExpandedRowsChange` batch against a fetch responder: the
synchronous scan, then — only when at least one fetch was issued — the merge
step over the responses. `forkJoin` of an empty source list completes without
emitting a value, so with no fetches the subscriber (merge + prune) never
runs and the cache stays as the scan left it. -/
def onExpandedRowsChange (fmt : Nat → String) (dateFmt : String → String)
    (numVersions : String → Nat) (bid : String)
    (responder : List FetchCall → List S3ObjectAttributes)
    (cache : List (String × AttrRecord)) (objects : List S3ObjectVersion) :
    List (String × AttrRecord) :=
  let st := expandScan fmt dateFmt numVersions bid cache objects
  if st.calls.isEmpty then st.cache
  else expandMerge fmt dateFmt numVersions st.cache objects (responder st.calls)

/-! ## C8 — `toBytes` (src/app/functions.helper.ts, lines 9-23)

The source executes
`RegExp('^(\\d+(.\\d+)?) ?([bkmgtpezy]?(b|ib|B/s)?)?$', 'i').exec(value)`,
then `parseFloat(m[1])`, scales by `Math.pow(1024, units.indexOf(
m[3].toLowerCase()[0]))` when `m[3]` is a string, and returns
`Math.round(bytes)`.

Notes on the embedding:
- In the pattern string the dot of `(.\d+)?` is NOT escaped, so it is the
  regex "any character except a line terminator".
- The match is embedded as a hand-compiled backtracking matcher following the
  ECMAScript order (greedy quantifiers, alternatives left to right). Two
  backtracking branches can be dropped because they provably never succeed:
  `\d+` taking less than the whole digit run, and the inner `\d+` of
  `(.\d+)?` stopping short of its digit run — in both cases the remaining
  input starts with a digit, which no continuation (`' ?'`, the unit group,
  `$`) can consume. Per the ECMAScript RepeatMatcher an optional group that
  would consume nothing does not participate, so an empty unit group leaves
  `m[3]` undefined, not `''`.
- With the `i` flag (non-unicode mode) case folding is ASCII-only, matching
  `Char.toLower`.
- IEEE-754 doubles (`parseFloat`, `Math.pow`, `Math.round`) are modelled by
  exact rationals; `Math.pow(1024, -1)` (from `indexOf` returning `-1` when
  `m[3]` starts with a letter outside the unit list, e.g. a bare `ib`
  suffix) is the exact `1/1024`, and `Math.round(x)` is `⌊x + 1/2⌋`.
- `parseFloat` reads an optional fraction after `.` and an exponent after
  `e`/`E`, and stops at the first character it cannot use. -/

/-- The unit letters of `toBytes` (`units` in the source). -/
def ubUnits : List Char := ['b', 'k', 'm', 'g', 't', 'p', 'e', 'z', 'y']

/-- ECMAScript line terminators, which `.` does not match. -/
def isLineTerm (c : Char) : Bool :=
  c = '\n' || c = '\r' || c.val = 0x2028 || c.val = 0x2029

/-- Split off the leading run of decimal digits. -/
def takeDigits : List Char → List Char × List Char
  | [] => ([], [])
  | c :: cs =>
    if c.isDigit then
      let (d, r) := takeDigits cs
      (c :: d, r)
    else ([], c :: cs)

/-- Candidates of `(b|ib|B/s)?` at `v`, in ECMAScript try order (alternatives
left to right, then the empty option), as `(consumed, rest)` pairs;
case-insensitive. -/
def matchAlt (v : List Char) : List (List Char × List Char) :=
  (match v with
   | c :: cs => if c.toLower = 'b' then [([c], cs)] else []
   | [] => []) ++
  (match v with
   | c1 :: c2 :: cs =>
     if c1.toLower = 'i' && c2.toLower = 'b' then [([c1, c2], cs)] else []
   | _ => []) ++
  (match v with
   | c1 :: c2 :: c3 :: cs =>
     if c1.toLower = 'b' && c2 = '/' && c3.toLower = 's' then [([c1, c2, c3], cs)] else []
   | _ => []) ++
  [([], v)]

/-- The unit group `([bkmgtpezy]?(b|ib|B/s)?)?` followed by `$`: try the class
letter greedily, then the suffix alternatives, in ECMAScript order; the first
candidate that leaves nothing behind wins. A group that consumed nothing does
not participate (`m[3]` undefined, modelled `none`); success returns the
captured `m[3]`. -/
def matchD (v : List Char) : Option (Option (List Char)) :=
  let clsOpts : List (List Char × List Char) :=
    (match v with
     | c :: cs => if ubUnits.contains c.toLower then [([c], cs)] else []
     | [] => []) ++ [([], v)]
  let cands := clsOpts.flatMap
    (fun cl => (matchAlt cl.2).map (fun al => (cl.1 ++ al.1, al.2)))
  match cands.find? (fun p => p.2.isEmpty) with
  | some (consumed, _) => if consumed.isEmpty then some none else some (some consumed)
  | none => none

/-- `' ?'` then the unit group then `$`: greedily consume one space, falling
back to none. -/
def matchTail (u : List Char) : Option (Option (List Char)) :=
  match u with
  | ' ' :: u2 =>
    (match matchD u2 with
     | some r => some r
     | none => matchD u)
  | _ => matchD u

/-- The captures of a successful match of the source regex:
`m[1] = intPart (++ sep.1 ++ sep.2)` and `m[3]`. -/
structure UbMatch where
  intPart : List Char
  sep : Option (Char × List Char)
  m3 : Option (List Char)
deriving DecidableEq, Repr

/-- The whole regex: `^(\d+(.\d+)?)` then `' ?'`, the unit group and `$`.
`\d+` takes the full digit run; the `(.\d+)?` attempt consumes one
non-line-terminator character and the following full digit run, falling back
to the empty option. -/
def ubMatchFun (s : List Char) : Option UbMatch :=
  let (d1, rest) := takeDigits s
  if d1.isEmpty then none
  else
    let bAttempt : Option UbMatch :=
      match rest with
      | c :: rest2 =>
        if isLineTerm c then none
        else
          let (d2, rest3) := takeDigits rest2
          if d2.isEmpty then none
          else
            match matchTail rest3 with
            | some m3 => some ⟨d1, some (c, d2), m3⟩
            | none => none
      | [] => none
    match bAttempt with
    | some m => some m
    | none =>
      match matchTail rest with
      | some m3 => some ⟨d1, none, m3⟩
      | none => none

/-- Numeric value of a digit run. -/
def digitsToNat (ds : List Char) : Nat :=
  ds.foldl (fun n c => n * 10 + (c.toNat - 48)) 0

/-- An exact nonnegative fraction `num / den` (`den` positive by
construction): the model of the nonnegative doubles arising inside
`toBytes`. -/
structure PosFrac where
  num : Nat
  den : Nat
deriving DecidableEq, Repr

/-- The rational value of a `PosFrac`. -/
def PosFrac.val (q : PosFrac) : ℚ := (q.num : ℚ) / (q.den : ℚ)

/-- Fraction multiplication (`bytes * Math.pow(...)`). -/
def mulF (a b : PosFrac) : PosFrac := ⟨a.num * b.num, a.den * b.den⟩

/-- `parseFloat(m[1])` over exact fractions: the integer part, then a decimal
fraction after `.`, a power of ten after `e`/`E`, and nothing otherwise
(`parseFloat` stops at the first character it cannot use). -/
def parseFloatF (m : UbMatch) : PosFrac :=
  let n := digitsToNat m.intPart
  match m.sep with
  | none => ⟨n, 1⟩
  | some (c, ds) =>
    if c = '.' then ⟨n * 10 ^ ds.length + digitsToNat ds, 10 ^ ds.length⟩
    else if c = 'e' || c = 'E' then ⟨n * 10 ^ digitsToNat ds, 1⟩
    else ⟨n, 1⟩

/-- `Math.pow(base, units.indexOf(m[3].toLowerCase()[0]))` with base 1024:
`1024 ^ i` for the index of the first letter of `m[3]`, or the exact
`1/1024` when `indexOf` returns `-1` (a unit group starting with a letter
outside the unit list, i.e. a bare `ib` suffix). -/
def unitFactorF (m3 : List Char) : PosFrac :=
  match m3 with
  | [] => ⟨1, 1⟩
  | c :: _ =>
    match ubUnits.indexOf? c.toLower with
    | some i => ⟨1024 ^ i, 1⟩
    | none => ⟨1, 1024⟩

/-- `Math.round` on the exact nonnegative model: `⌊x + 1/2⌋`, computed as
`(2 num + den) / (2 den)` in natural division (`jsRoundF_eq_floor` below
proves the two agree). -/
def jsRoundF (q : PosFrac) : Nat := (2 * q.num + q.den) / (2 * q.den)

/-- `toBytes` (src/app/functions.helper.ts, lines 9-23). -/
def toBytes (value : String) : Option Int :=
  match ubMatchFun value.toList with
  | none => none
  | some m =>
    let bytes := parseFloatF m
    let bytes :=
      match m.m3 with
      | some u => mulF bytes (unitFactorF u)
      | none => bytes
    some ((jsRoundF bytes : Nat) : Int)

/-- The grammar as the CLAIM states it:
`^\d+(\.\d+)? ?[bkmgtpezy]?(b|ib|B/s)?$` with an ESCAPED dot (claim side of
C8; the optional-space/unit/suffix sublanguage coincides with the source's,
so `matchTail` is reused for it). -/
def specToBytesAccepts (s : String) : Bool :=
  let (d1, rest) := takeDigits s.toList
  if d1.isEmpty then false
  else
    (match rest with
     | '.' :: r2 =>
       let (d2, r3) := takeDigits r2
       if d2.isEmpty then false else (matchTail r3).isSome
     | _ => false) ||
    (matchTail rest).isSome

/-! ## C9 — key/prefix path model

Modelled from the spec: `splitKey`, `buildPrefix` and the delimiter live in
s3-bucket.service.ts, which is not part of this tree (spec section 4.2). -/

/-- Join character lists with the delimiter character `/` between them. -/
def joinSegs : List (List Char) → List Char
  | [] => []
  | [l] => l
  | l :: ls => l ++ '/' :: joinSegs ls

/-- Split a character list at every delimiter character `/`. -/
def splitSegs : List Char → List (List Char)
  | [] => [[]]
  | c :: cs =>
    if c = '/' then [] :: splitSegs cs
    else
      match splitSegs cs with
      | s :: ss => (c :: s) :: ss
      | [] => [[c]]

/-- Modelled from the spec: `splitKey(key)` splits `key` on the delimiter
into the ordered sequence of its non-empty segments (a trailing delimiter
thus contributes nothing). -/
def splitKey (key : String) : List String :=
  ((splitSegs key.toList).map (fun l => String.mk l)).filter (fun s => !s.isEmpty)

/-- Modelled from the spec: `buildPrefix(parts, trailingDelimiter)` joins the
segments with the delimiter and appends a trailing delimiter when requested
and the segments are non-empty. -/
def buildPrefix (parts : List String) (trailingDelimiter : Bool) : String :=
  let p := String.mk (joinSegs (parts.map String.toList))
  if trailingDelimiter && !parts.isEmpty then p ++ delimiter else p

/-! ## C10 — enablement of the Download/Delete actions

From the `datatableActions` declarations (frontend component, lines 102-125)
and `onActionMenu` (lines 472-509). -/

/-- The `enabledConstraints.callback` shared by the bulk Download and Delete
actions: every selected row must not be deleted (lines 108-109 and 120-121).
Their `enabledConstraints.minSelected` is 1. -/
def bulkActionConstraint (selected : List S3ObjectVersion) : Bool :=
  selected.all (fun o => !o.IsDeleted)

/-- The bulk actions' `minSelected` constraint value. -/
def bulkActionMinSelected : Nat := 1

/-- Modelled from the spec: the generic datatable (an external collaborator,
spec sections 1 and 6) enables an action iff at least `minSelected` rows are
selected and the `enabledConstraints` callback accepts the selection. -/
def actionEnabled (minSelected : Nat) (constraint : List S3ObjectVersion → Bool)
    (selected : List S3ObjectVersion) : Bool :=
  decide (minSelected ≤ selected.length) && constraint selected

/-- One entry of a row's action menu (`DatatableRowAction`): its title and
disabled state; dividers carry no title. -/
structure RowAction where
  title : String := ("")
  disabled : Bool := false
deriving DecidableEq, Repr

/-- From `onActionMenu`: the per-row menu. For an OBJECT row, Download and
Delete are disabled when the row is deleted and "Show versions" is disabled
when the version-count index holds no explicit version for the key; a FOLDER
row only offers Delete, always enabled. -/
def onActionMenu (numVersions : String → Nat) (o : S3ObjectVersion) : List RowAction :=
  if o.Type' = S3ObjType.OBJECT then
    [ { title := ("Download"), disabled := o.IsDeleted }
    , { title := ("Show versions"), disabled := decide (numVersions o.Key < 1) }
    , { title := ("") }
    , { title := ("Delete"), disabled := o.IsDeleted } ]
  else
    [ { title := ("Delete") } ]

/-! ### Concrete expand/collapse scenario (claim C7, spec section 8) -/

/-- Scenario formatter standing for `bytesToSize`. -/
def scFmt (n : Nat) : String := toString n

/-- Scenario formatter standing for the locale date pipe. -/
def scDate (s : String) : String := s

/-- Scenario version-count index. -/
def scNv (_ : String) : Nat := 0

/-- Scenario row A: a plain (non-deleted) object row. -/
def expRowA : S3ObjectVersion :=
  { Key := ("a.txt"), VersionId := some ("v1"), IsLatest := true, Size := 10 }

/-- Scenario row B: a different plain object row. -/
def expRowB : S3ObjectVersion :=
  { Key := ("b.txt"), VersionId := some ("v2"), IsLatest := true, Size := 20 }

/-- Scenario fetch responder: every issued `getObjectAttributes` call answers
with a record for its key. -/
def scResponder (calls : List FetchCall) : List S3ObjectAttributes :=
  calls.map (fun c => { Key := c.key })

/-- The attribute cache after expanding row A, then collapsing it, then
expanding row B (three `onExpandedRowsChange` batches from an empty cache). -/
def scCacheAfter : List (String × AttrRecord) :=
  onExpandedRowsChange scFmt scDate scNv ("bkt") scResponder
    (onExpandedRowsChange scFmt scDate scNv ("bkt") scResponder
      (onExpandedRowsChange scFmt scDate scNv ("bkt") scResponder [] [expRowA])
      [])
    [expRowB]

/-! # Theorems -/

@[simp] theorem alookup_nil {α : Type} (k : String) : alookup (α := α) k [] = none := rfl

theorem alookup_cons {α : Type} (k : String) (p : String × α) (ps : List (String × α)) :
    alookup k (p :: ps) = if p.1 = k then some p.2 else alookup k ps := rfl

theorem alookup_aupsert {α : Type} (k j : String) (v : α) (m : List (String × α)) :
    alookup k (aupsert j v m) = if j = k then some v else alookup k m := by
  induction m with
  | nil =>
    by_cases h : j = k <;> simp [aupsert, alookup, h]
  | cons p ps ih =>
    by_cases hp : p.1 = j
    · rw [aupsert, if_pos hp]
      by_cases h : j = k <;> simp [alookup, hp, h, hp.symm ▸ h]
    · rw [aupsert, if_neg hp]
      by_cases h : p.1 = k
      · have hjk : ¬ (j = k) := fun hh => hp (hh ▸ h)
        simp [alookup, h, hjk]
      · simp [alookup, h, ih]

theorem alookup_append {α : Type} (k : String) (m1 m2 : List (String × α)) :
    alookup k (m1 ++ m2) =
      match alookup k m1 with
      | some v => some v
      | none => alookup k m2 := by
  induction m1 with
  | nil => simp [alookup]
  | cons p ps ih =>
    by_cases h : p.1 = k <;> simp [alookup, h, ih]

/-- C1: for every record list received by one reload and every state of the
"show deleted" flag, the displayed row set is exactly the latest non-deleted
records in input order followed — only when the flag is set — by the latest
deleted records in input order; a record with `IsLatest = false` never
appears. In particular, on the spec's mixed A/B version list the rows are
`[A]` with the flag off and `[A, B]` with it on. -/
theorem loadData_display_row_set :
    (∀ (sd : Bool) (objects : List S3ObjectVersion),
      loadDataRows sd objects = displayRowSetSpec sd objects ∧
      (loadDataRows sd objects).all (fun o => o.IsLatest) = true) ∧
    loadDataRows false mixedVersionList = [recA] ∧
    loadDataRows true mixedVersionList = [recA, recB] := by
  refine ⟨fun sd objects => ⟨?_, ?_⟩, by decide, by decide⟩
  · cases sd <;> simp [loadDataRows, displayRowSetSpec]
  · cases sd <;>
      · simp only [loadDataRows, List.all_eq_true]
        intro o ho
        first
        | exact (Bool.and_elim_left (List.mem_filter.mp ho).2)
        | rcases List.mem_append.mp ho with h | h <;>
            exact (Bool.and_elim_left (List.mem_filter.mp h).2)

/-- C3: every confirmed delete batch maps each selected FOLDER row to exactly
one prefix-delete call whose prefix is the folder key concatenated with the
delimiter, each selected OBJECT row to exactly one single-object delete call,
and carries the single `allVersions` boolean of the confirmation step
unchanged into every call of the batch. -/
theorem doDelete_batch_calls :
    ∀ (bid : String) (allVersions : Bool) (items : List S3ObjectVersion),
      doDeleteSources bid allVersions items = items.map (deleteCallFor bid allVersions) ∧
      (doDeleteSources bid allVersions items).all
        (fun c => c.allVersionsOf == allVersions) = true := by
  intro bid a items
  have key : ∀ (l : List S3ObjectVersion) (acc : List DeleteCall),
      l.foldl
        (fun sources item =>
          match item.Type' with
          | .FOLDER => sources ++ [DeleteCall.byPfx bid (item.Key ++ delimiter) a]
          | .OBJECT => sources ++ [DeleteCall.single bid item.Key none a])
        acc = acc ++ l.map (deleteCallFor bid a) := by
    intro l
    induction l with
    | nil => intro acc; simp
    | cons x xs ih =>
      intro acc
      cases hx : x.Type' <;> simp [List.foldl, deleteCallFor, hx, ih]
  have hmap : doDeleteSources bid a items = items.map (deleteCallFor bid a) := by
    simpa [doDeleteSources] using key items []
  refine ⟨hmap, ?_⟩
  rw [hmap, List.all_eq_true]
  intro c hc
  rcases List.mem_map.mp hc with ⟨item, _, rfl⟩
  cases h : item.Type' <;> simp [deleteCallFor, h, DeleteCall.allVersionsOf]

/-- C4: for every delete batch, once all constituent operations have settled
— whatever each outcome was — the event stream carries exactly one completion
and the subscription handler therefore triggers exactly one listing reload;
the completion (and hence the reload) comes strictly after every per-item
settle event. -/
theorem doDelete_reload_once :
    ∀ outcomes : List SettleOutcome,
      deleteReloads (concatDeleteEvents outcomes) = 1 ∧
      (concatDeleteEvents outcomes).getLast? = some DeleteEvent.completed ∧
      (concatDeleteEvents outcomes).dropLast.all
        (fun e => e != DeleteEvent.completed) = true := by
  intro outcomes
  refine ⟨?_, ?_, ?_⟩
  · have h : ∀ (os : List SettleOutcome) (n : Nat),
        (os.map DeleteEvent.settled ++ [DeleteEvent.completed]).foldl
          (fun n e => match e with | .completed => n + 1 | .settled _ => n) n = n + 1 := by
      intro os
      induction os with
      | nil => intro n; rfl
      | cons o os ih => intro n; simpa using ih n
    simpa [deleteReloads, concatDeleteEvents] using h outcomes 0
  · simp [concatDeleteEvents]
  · rw [concatDeleteEvents, List.dropLast_concat, List.all_eq_true]
    intro e he
    rcases List.mem_map.mp he with ⟨o, _, rfl⟩
    simp

theorem foldl_lastLoaded :
    ∀ (prog : List UploadProgress) (init : Nat),
      prog.foldl (fun _ p => p.loaded) init
        = ((prog.getLast?).map UploadProgress.loaded).getD init := by
  intro prog
  induction prog with
  | nil => intro init; rfl
  | cons p ps ih =>
    intro init
    cases ps with
    | nil => rfl
    | cons q qs => simpa [List.getLast?] using ih p.loaded

/-- C5 counterexample: on the spec-modelled upload stream for a batch of 5
files whose third file throws, the orchestrator's final (and only)
notification is the error notification carrying the error message — not the
partial-success message reporting the 2 completed items (its text does not
even contain the digit 2), and no reload is triggered; the last progress
event before the failure had reported `loaded = 2`. This refutes the claim's
"a batch of 5 files where item 3 throws reports exactly 2 completed items". -/
theorem doUpload_item3_counterexample :
    (doUploadRun 5 (uploadStream 5 (some (3, ("boom")))).1
        (uploadStream 5 (some (3, ("boom")))).2).notifs
      = [Notif.failure ("Failed to upload the objects: boom")] ∧
    (doUploadRun 5 (uploadStream 5 (some (3, ("boom")))).1
        (uploadStream 5 (some (3, ("boom")))).2).notifs
      ≠ [Notif.success (uploadSomeMsg 2 5)] ∧
    (("Failed to upload the objects: boom").toList.contains '2') = false ∧
    (doUploadRun 5 (uploadStream 5 (some (3, ("boom")))).1
        (uploadStream 5 (some (3, ("boom")))).2).reloads = 0 ∧
    ((uploadStream 5 (some (3, ("boom")))).1.map UploadProgress.loaded) = [1, 2] := by
  refine ⟨?_, ?_, ?_, ?_, ?_⟩ <;> decide

/-- C5 (amended): on stream completion the single success notification
reports "all succeeded" iff the last reported loaded count equals the file
count and otherwise reports the partial loaded count, and exactly one reload
is triggered; a stream-level error produces exactly one error notification
whose text carries the error's message verbatim, is handled inside the
orchestrator (the error callback just notifies), and triggers no reload.
A batch of 5 files whose third file throws last reports 2 completed items in
the progress events and then surfaces only the error notification — no
completion message carrying the completed count is shown. -/
theorem doUpload_orchestrator :
    (∀ (n : Nat) (prog : List UploadProgress),
      (doUploadRun n prog UploadTerminal.completed).lastLoaded
        = ((prog.getLast?).map UploadProgress.loaded).getD 0 ∧
      (doUploadRun n prog UploadTerminal.completed).reloads = 1 ∧
      ((doUploadRun n prog UploadTerminal.completed).lastLoaded = n →
        (doUploadRun n prog UploadTerminal.completed).notifs
          = [Notif.success (uploadAllMsg n)]) ∧
      ((doUploadRun n prog UploadTerminal.completed).lastLoaded ≠ n →
        (doUploadRun n prog UploadTerminal.completed).notifs
          = [Notif.success
              (uploadSomeMsg (doUploadRun n prog UploadTerminal.completed).lastLoaded n)])) ∧
    (∀ (n : Nat) (prog : List UploadProgress) (msg : String),
      (doUploadRun n prog (UploadTerminal.errored msg)).notifs
        = [Notif.failure (("Failed to upload the objects: ") ++ msg)] ∧
      (doUploadRun n prog (UploadTerminal.errored msg)).reloads = 0) ∧
    ((uploadStream 5 (some (3, ("boom")))).1.map UploadProgress.loaded = [1, 2] ∧
      (doUploadRun 5 (uploadStream 5 (some (3, ("boom")))).1
          (uploadStream 5 (some (3, ("boom")))).2).notifs
        = [Notif.failure ("Failed to upload the objects: boom")] ∧
      (doUploadRun 5 (uploadStream 5 (some (3, ("boom")))).1
          (uploadStream 5 (some (3, ("boom")))).2).reloads = 0) := by
  refine ⟨fun n prog => ?_, fun n prog msg => ?_, by decide, by decide, by decide⟩
  · have hlast : (doUploadRun n prog UploadTerminal.completed).lastLoaded
        = ((prog.getLast?).map UploadProgress.loaded).getD 0 := by
      simp [doUploadRun, foldl_lastLoaded]
    refine ⟨hlast, rfl, ?_, ?_⟩
    · intro h
      have h0 : prog.foldl (fun _ p => p.loaded) 0 = n := h
      simp [doUploadRun, h0]
    · intro h
      have h0 : ¬ prog.foldl (fun _ p => p.loaded) 0 = n := h
      simp [doUploadRun, h0]
  · exact ⟨rfl, rfl⟩

theorem alookup_bumpCount (k j : String) (m : List (String × Nat)) :
    alookup k (bumpCount m j) =
      if j = k then (alookup k m).map (fun v => v + 1) else alookup k m := by
  induction m with
  | nil => by_cases h : j = k <;> simp [bumpCount, alookup, h]
  | cons p ps ih =>
    obtain ⟨a, v⟩ := p
    have hmap : bumpCount ((a, v) :: ps) j
        = (if a = j then (a, v + 1) else (a, v)) :: bumpCount ps j := rfl
    rw [hmap]
    by_cases hp : a = j
    · subst hp
      by_cases h : a = k
      · subst h
        simp [alookup]
      · simp [alookup, h, ih]
    · by_cases h : a = k
      · subst h
        have hjk : ¬ j = a := fun hh => hp hh.symm
        simp [alookup, hp, hjk]
      · simp [alookup, hp, h, ih]

theorem countsForKey_eq (k : String) (o : S3ObjectVersion) :
    countsForKey k o = ((o.Key == k) && isObjectVersionID o.VersionId true) := by
  cases h : o.VersionId with
  | none => simp [countsForKey, isObjectVersionID, h]
  | some s =>
    by_cases hs : s = versionIdSentinel
    · subst hs
      simp [countsForKey, isObjectVersionID, h]
    · have h1 : (some s != some versionIdSentinel) = true := by simp [bne, hs]
      have h2 : (s != versionIdSentinel) = true := by simp [bne, hs]
      simp [countsForKey, isObjectVersionID, h, h1, h2]

theorem alookup_buildNumVersionsFrom :
    ∀ (os : List S3ObjectVersion) (m : List (String × Nat)) (k : String),
      alookup k (buildNumVersionsFrom m os) =
        match alookup k m with
        | some v => some (v + os.countP (countsForKey k))
        | none =>
          if os.any (fun o => o.Key == k) then some (os.countP (countsForKey k)) else none := by
  intro os
  induction os with
  | nil => intro m k; cases h : alookup k m <;> simp [buildNumVersionsFrom, h]
  | cons o os ih =>
    intro m k
    rw [buildNumVersionsFrom]
    by_cases hk : o.Key = k
    · subst hk
      have hm1 : alookup o.Key
          (if (alookup o.Key m).isNone then m ++ [(o.Key, 0)] else m)
            = some ((alookup o.Key m).getD 0) := by
        cases h : alookup o.Key m with
        | none => simp [h, alookup_append, alookup]
        | some v => simp [h]
      set m1 := if (alookup o.Key m).isNone then m ++ [(o.Key, 0)] else m with hm1def
      by_cases hv : isObjectVersionID o.VersionId true
      · rw [if_pos hv, ih]
        have hb : alookup o.Key (bumpCount m1 o.Key)
            = some ((alookup o.Key m).getD 0 + 1) := by
          rw [alookup_bumpCount]
          simp [hm1]
        rw [hb]
        have hcnt : countsForKey o.Key o = true := by
          rw [countsForKey_eq]; simp [hv]
        cases h : alookup o.Key m with
        | none => simp [h, List.countP_cons, hcnt, Nat.add_comm]
        | some v => simp [h, List.countP_cons, hcnt, Nat.add_comm, Nat.add_assoc,
            Nat.add_left_comm]
      · rw [if_neg hv, ih, hm1]
        have hcnt : countsForKey o.Key o = false := by
          rw [countsForKey_eq]
          simp [hv]
        cases h : alookup o.Key m with
        | none => simp [h, List.countP_cons, hcnt]
        | some v => simp [h, List.countP_cons, hcnt]
    · have hne : (o.Key == k) = false := by simp [hk]
      have hm1 : ∀ m1, (m1 = if (alookup o.Key m).isNone then m ++ [(o.Key, 0)] else m) →
          alookup k m1 = alookup k m := by
        intro m1 hdef
        cases h : alookup o.Key m with
        | none =>
          subst hdef
          rw [h]
          simp [alookup_append, alookup, hk]
          cases hkm : alookup k m <;> simp [hkm]
        | some v => simp [hdef, h]
      set m1 := if (alookup o.Key m).isNone then m ++ [(o.Key, 0)] else m with hm1def
      have h1 : alookup k m1 = alookup k m := hm1 m1 hm1def
      have hcnt : countsForKey k o = false := by
        rw [countsForKey_eq]; simp [hne]
      by_cases hv : isObjectVersionID o.VersionId true
      · rw [if_pos hv, ih, alookup_bumpCount, if_neg hk, h1]
        simp [List.countP_cons, hcnt, List.any_cons, hne]
      · rw [if_neg hv, ih, h1]
        simp [List.countP_cons, hcnt, List.any_cons, hne]

/-- C2: after one reload over `objects`, every key appearing in the list is
mapped by the version-count index to exactly the number of its records whose
`VersionId` is a non-sentinel value (present, non-null and not the storage
API's unversioned-bucket sentinel); a key all of whose records carry only
sentinel or absent version ids is mapped to 0. -/
theorem loadData_version_count_index :
    ∀ (objects : List S3ObjectVersion) (k : String),
      objects.any (fun o => o.Key == k) = true →
      alookup k (buildNumVersions objects) = some (objects.countP (countsForKey k)) ∧
      (objects.all (fun o => !(countsForKey k o)) = true →
        alookup k (buildNumVersions objects) = some 0) := by
  intro objects k hany
  have h := alookup_buildNumVersionsFrom objects [] k
  rw [alookup_nil] at h
  rw [hany] at h
  refine ⟨by simpa using h, fun hall => ?_⟩
  have hzero : objects.countP (countsForKey k) = 0 := by
    rw [List.countP_eq_zero]
    intro o ho
    have := List.all_eq_true.mp hall o ho
    simpa using this
  simpa [hzero] using h

/-- Witness for `loadData_version_count_index`: on the spec's mixed version
list key A (three records, all with explicit version ids) is mapped to 3 and
key B (one record) to 1. -/
theorem loadData_version_count_index_witness :
    mixedVersionList.any (fun o => o.Key == ("a.txt")) = true ∧
    alookup ("a.txt") (buildNumVersions mixedVersionList) = some 3 := by
  refine ⟨by decide, ?_⟩
  have h := (loadData_version_count_index mixedVersionList ("a.txt") (by decide)).1
  exact h.trans (by decide)

theorem expandScanFrom_cons (fmt : Nat → String) (dateFmt : String → String)
    (nv : String → Nat) (bid : String) (st : ExpandScan) (o : S3ObjectVersion)
    (os : List S3ObjectVersion) :
    expandScanFrom fmt dateFmt nv bid st (o :: os) =
      expandScanFrom fmt dateFmt nv bid
        (if (alookup o.Key st.cache).isNone then
          if o.IsDeleted then
            { st with
              loading := st.loading ++ [o.Key]
              cache := aupsert o.Key (synthAttr fmt dateFmt nv o) st.cache }
          else
            { st with
              loading := st.loading ++ [o.Key]
              calls := st.calls ++ [⟨bid, o.Key, o.VersionId⟩] }
        else st) os := rfl

theorem expandScanFrom_other_keys (fmt : Nat → String) (dateFmt : String → String)
    (nv : String → Nat) (bid : String) :
    ∀ (os : List S3ObjectVersion) (st : ExpandScan) (k : String),
      os.all (fun o => !(o.Key == k)) = true →
      alookup k (expandScanFrom fmt dateFmt nv bid st os).cache = alookup k st.cache ∧
      (expandScanFrom fmt dateFmt nv bid st os).calls.countP (fun c => c.key == k)
        = st.calls.countP (fun c => c.key == k) := by
  intro os
  induction os with
  | nil => intro st k _; exact ⟨rfl, rfl⟩
  | cons o os ih =>
    intro st k h
    rw [List.all_cons, Bool.and_eq_true] at h
    obtain ⟨ho, hos⟩ := h
    have hkey : ¬ (o.Key = k) := by simpa using ho
    rw [expandScanFrom_cons]
    by_cases hc : (alookup o.Key st.cache).isNone
    · by_cases hd : o.IsDeleted
      · rw [if_pos hc, if_pos hd]
        obtain ⟨h1, h2⟩ := ih _ k hos
        refine ⟨?_, by simpa using h2⟩
        rw [h1]
        simp [alookup_aupsert, hkey]
      · rw [if_pos hc, if_neg hd]
        obtain ⟨h1, h2⟩ := ih _ k hos
        refine ⟨by simpa using h1, ?_⟩
        rw [h2]
        simp [List.countP_append, List.countP_cons, hkey]
    · rw [if_neg hc]
      exact ih st k hos

theorem expandScanFrom_new_key (fmt : Nat → String) (dateFmt : String → String)
    (nv : String → Nat) (bid : String) :
    ∀ (os : List S3ObjectVersion) (st : ExpandScan) (o : S3ObjectVersion),
      (os.map (fun x => x.Key)).Nodup →
      o ∈ os →
      alookup o.Key st.cache = none →
      (o.IsDeleted = true →
        alookup o.Key (expandScanFrom fmt dateFmt nv bid st os).cache
          = some (synthAttr fmt dateFmt nv o) ∧
        (expandScanFrom fmt dateFmt nv bid st os).calls.countP (fun c => c.key == o.Key)
          = st.calls.countP (fun c => c.key == o.Key)) ∧
      (o.IsDeleted = false →
        (expandScanFrom fmt dateFmt nv bid st os).calls.countP (fun c => c.key == o.Key)
          = st.calls.countP (fun c => c.key == o.Key) + 1) := by
  intro os
  induction os with
  | nil => intro st o _ hmem; exact absurd hmem (List.not_mem_nil o)
  | cons x xs ih =>
    intro st o hnd hmem hcache
    rw [List.map_cons, List.nodup_cons] at hnd
    obtain ⟨hx_notin, hnd'⟩ := hnd
    rcases List.mem_cons.mp hmem with rfl | hmem'
    · -- the row is the head of the batch, uncached, so it is processed now
      have htail : xs.all (fun x => !(x.Key == o.Key)) = true := by
        rw [List.all_eq_true]
        intro y hy
        have : y.Key ≠ o.Key := fun hk => hx_notin (hk ▸ List.mem_map_of_mem _ hy)
        simpa using this
      rw [expandScanFrom_cons, hcache]
      simp only [Option.isNone_none, if_true]
      by_cases hd : o.IsDeleted
      · rw [if_pos hd]
        obtain ⟨h1, h2⟩ := expandScanFrom_other_keys fmt dateFmt nv bid xs _ o.Key htail
        refine ⟨fun _ => ⟨?_, by simpa using h2⟩, fun hfalse => ?_⟩
        · rw [h1]
          simp [alookup_aupsert]
        · rw [hd] at hfalse
          exact Bool.noConfusion hfalse
      · rw [if_neg hd]
        obtain ⟨h1, h2⟩ := expandScanFrom_other_keys fmt dateFmt nv bid xs _ o.Key htail
        refine ⟨fun htrue => ?_, fun _ => ?_⟩
        · rw [← htrue] at hd
          exact absurd rfl hd
        · rw [h2]
          simp [List.countP_append, List.countP_cons]
    · -- the row sits deeper in the batch; the head has another key
      have hxo : x.Key ≠ o.Key := fun hk => hx_notin (hk ▸ List.mem_map_of_mem _ hmem')
      rw [expandScanFrom_cons]
      by_cases hc : (alookup x.Key st.cache).isNone
      · by_cases hd : x.IsDeleted
        · rw [if_pos hc, if_pos hd]
          have hcache' : alookup o.Key
              (aupsert x.Key (synthAttr fmt dateFmt nv x) st.cache) = none := by
            rw [alookup_aupsert, if_neg hxo]
            exact hcache
          exact ih _ o hnd' hmem' hcache'
        · rw [if_pos hc, if_neg hd]
          have h := ih { st with
              loading := st.loading ++ [x.Key]
              calls := st.calls ++ [⟨bid, x.Key, x.VersionId⟩] } o hnd' hmem' hcache
          have hcp : (st.calls ++ [(⟨bid, x.Key, x.VersionId⟩ : FetchCall)]).countP
              (fun c => c.key == o.Key) = st.calls.countP (fun c => c.key == o.Key) := by
            simp [List.countP_append, List.countP_cons, hxo]
          refine ⟨fun hd' => ?_, fun hd' => ?_⟩
          · obtain ⟨h1, h2⟩ := h.1 hd'
            exact ⟨h1, by rw [h2]; simpa using hcp⟩
          · have h2 := h.2 hd'
            rw [h2]
            simp [List.countP_append, List.countP_cons, hxo]
      · rw [if_neg hc]
        exact ih st o hnd' hmem' hcache

/-- C6: in every expanded-rows-change batch, a newly-expanded row that is a
delete-marker and not yet cached gets its cache entry synthesized entirely
locally — size formatted by the byte-size converter, date locale-formatted,
ETag with its surrounding double quotes stripped, `ObjectLockMode` NONE,
`ObjectLockRetainUntilDate` empty, `ObjectLockLegalHoldStatus` OFF, an empty
tag set and the version count taken from the version-count index — and no
attribute-fetch call is issued for it; a non-deleted newly-expanded row
issues exactly one attribute-fetch call instead. -/
theorem expand_delete_marker_synthesis :
    ∀ (fmt : Nat → String) (dateFmt : String → String) (nv : String → Nat)
      (bid : String) (cache : List (String × AttrRecord))
      (objects : List S3ObjectVersion) (o : S3ObjectVersion),
      (objects.map (fun x => x.Key)).Nodup →
      o ∈ objects →
      alookup o.Key cache = none →
      (o.IsDeleted = true →
        alookup o.Key (expandScan fmt dateFmt nv bid cache objects).cache
          = some
            { Key := o.Key
              VersionId := o.VersionId
              IsLatest := o.IsLatest
              IsDeleted := o.IsDeleted
              Size := fmt o.Size
              LastModified := dateFmt o.LastModified
              ETag := trimChar '"' o.ETag
              Type' := o.Type'
              ObjectLockMode := ("NONE")
              ObjectLockRetainUntilDate := ("")
              ObjectLockLegalHoldStatus := ("OFF")
              ContentType := ("")
              TagSet := []
              NumVersions := nv o.Key } ∧
        (expandScan fmt dateFmt nv bid cache objects).calls.countP
          (fun c => c.key == o.Key) = 0) ∧
      (o.IsDeleted = false →
        (expandScan fmt dateFmt nv bid cache objects).calls.countP
          (fun c => c.key == o.Key) = 1) := by
  intro fmt dateFmt nv bid cache objects o hnd hmem hcache
  have h := expandScanFrom_new_key fmt dateFmt nv bid objects ⟨cache, [], []⟩ o hnd hmem hcache
  refine ⟨fun hd => ?_, fun hd => ?_⟩
  · obtain ⟨h1, h2⟩ := h.1 hd
    exact ⟨h1, by simpa using h2⟩
  · simpa using h.2 hd

/-- Witness for `expand_delete_marker_synthesis`: expanding the delete-marker
row B over an empty cache synthesizes its entry and issues no fetch call. -/
theorem expand_delete_marker_synthesis_witness :
    alookup (("b.txt"))
        (expandScan scFmt scDate scNv ("bkt") [] [recB]).cache
      = some (synthAttr scFmt scDate scNv recB) ∧
    (expandScan scFmt scDate scNv ("bkt") [] [recB]).calls.countP
      (fun c => c.key == ("b.txt")) = 0 := by
  have h := (expand_delete_marker_synthesis scFmt scDate scNv ("bkt") [] [recB] recB
    (by decide) (by decide) rfl).1 rfl
  exact ⟨h.1, h.2⟩

/-- C7: after the merge step of every expanded-rows-change batch the
attribute cache holds entries only for keys of the currently-expanded rows —
entries of collapsed rows are discarded by the prune — and in particular
expanding row A, collapsing it, then expanding row B leaves the cache holding
exactly B's key. -/
theorem attr_cache_pruned_to_expanded :
    (∀ (fmt : Nat → String) (dateFmt : String → String) (nv : String → Nat)
        (cache : List (String × AttrRecord)) (objects : List S3ObjectVersion)
        (attrs : List S3ObjectAttributes),
      (expandMerge fmt dateFmt nv cache objects attrs).all
        (fun p => objects.any (fun o => o.Key == p.1)) = true) ∧
    scCacheAfter.map (fun p => p.1) = [("b.txt")] := by
  refine ⟨fun fmt dateFmt nv cache objects attrs => ?_, by decide⟩
  rw [List.all_eq_true]
  intro p hp
  simp only [expandMerge] at hp
  exact (List.mem_filter.mp hp).2

theorem splitSegs_ne_nil : ∀ cs : List Char, splitSegs cs ≠ []
  | [] => by simp [splitSegs]
  | c :: cs => by
    rw [splitSegs]
    by_cases h : c = '/'
    · simp [h]
    · rw [if_neg h]
      cases hs : splitSegs cs <;> simp

theorem splitSegs_append :
    ∀ (l cs : List Char), l.all (fun c => c != '/') = true →
      splitSegs (l ++ cs) =
        match splitSegs cs with
        | s :: ss => (l ++ s) :: ss
        | [] => [l] := by
  intro l
  induction l with
  | nil =>
    intro cs _
    cases hs : splitSegs cs with
    | nil => exact absurd hs (splitSegs_ne_nil cs)
    | cons s ss => rw [List.nil_append, hs]; simp
  | cons c l ih =>
    intro cs h
    rw [List.all_cons, Bool.and_eq_true] at h
    obtain ⟨hc, hl⟩ := h
    have hc' : ¬ (c = '/') := by simpa using hc
    rw [List.cons_append, splitSegs, if_neg hc', ih cs hl]
    cases hs : splitSegs cs with
    | nil => exact absurd hs (splitSegs_ne_nil cs)
    | cons s ss => simp

/-- C9: `splitKey` and `buildPrefix` are pure functions of their arguments
(hence deterministic), and for every sequence of non-empty segments free of
the delimiter character, `splitKey` applied to `buildPrefix` of the sequence
without trailing delimiter returns the original sequence. -/
theorem splitKey_buildPrefix_roundtrip :
    ∀ parts : List String,
      parts.all (fun s => !s.isEmpty && s.toList.all (fun c => c != '/')) = true →
      splitKey ( buildPrefix parts false) = parts := by
  intro parts
  induction parts with
  | nil => intro _; decide
  | cons p rest ih =>
    intro h
    rw [List.all_cons, Bool.and_eq_true] at h
    obtain ⟨hp, hrest⟩ := h
    rw [Bool.and_eq_true] at hp
    obtain ⟨hpne, hpfree⟩ := hp
    cases rest with
    | nil =>
      show splitKey (String.mk (joinSegs [p.toList])) = [p]
      have hj : joinSegs [p.toList] = p.toList ++ [] := by simp [joinSegs]
      rw [hj, splitKey]
      have hs : splitSegs ((String.mk (p.toList ++ [])).toList)
          = [p.toList ++ []] := by
        rw [show (String.mk (p.toList ++ [])).toList = p.toList ++ [] from rfl]
        rw [splitSegs_append _ _ hpfree]
        rfl
      rw [hs]
      simp [hpne]
    | cons r rs =>
      show splitKey (String.mk
        (joinSegs (p.toList :: (r :: rs).map String.toList))) = p :: r :: rs
      have hj : joinSegs (p.toList :: (r :: rs).map String.toList)
          = p.toList ++ '/' :: joinSegs ((r :: rs).map String.toList) := rfl
      rw [hj, splitKey]
      have hs : splitSegs ((String.mk (p.toList ++ '/' ::
          joinSegs ((r :: rs).map String.toList))).toList)
          = (p.toList ++ []) ::
            splitSegs (joinSegs ((r :: rs).map String.toList)) := by
        rw [show (String.mk (p.toList ++ '/' ::
          joinSegs ((r :: rs).map String.toList))).toList = p.toList ++ '/' ::
          joinSegs ((r :: rs).map String.toList) from rfl]
        rw [splitSegs_append _ _ hpfree, splitSegs, if_pos rfl]
      rw [hs]
      have htail := ih hrest
      rw [List.map_cons, List.filter_cons]
      have hkeep : (!(String.mk (p.toList ++ [])).isEmpty) = true := by
        simpa using hpne
      rw [if_pos hkeep]
      have : (String.mk (p.toList ++ [])) = p := by
        simp
      rw [this]
      refine congrArg (fun l => p :: l) ?_
      simpa [splitKey, buildPrefix] using htail

/-- Witness for `splitKey_buildPrefix_roundtrip`: a three-segment path
round-trips. -/
theorem splitKey_buildPrefix_roundtrip_witness :
    splitKey ( buildPrefix [("docs"), ("2024"), ("report.pdf")] false)
      = [("docs"), ("2024"), ("report.pdf")] :=
  splitKey_buildPrefix_roundtrip [("docs"), ("2024"), ("report.pdf")] (by decide)

/-- C10: the bulk Download and Delete table actions are enabled iff at least
one row is selected and every selected row has `IsDeleted = false`; the
per-row Download and Delete menu entries of a deleted object row are
disabled. Hence no bulk or per-row download/delete is ever dispatched for a
delete-marker row. -/
theorem deleted_rows_actions_disabled :
    (∀ selected : List S3ObjectVersion,
      actionEnabled bulkActionMinSelected bulkActionConstraint selected = true ↔
        selected ≠ [] ∧ ∀ o ∈ selected, o.IsDeleted = false) ∧
    (∀ (nv : String → Nat) (o : S3ObjectVersion),
      o.Type' = S3ObjType.OBJECT → o.IsDeleted = true →
      ((onActionMenu nv o).filter
          (fun a => a.title == ("Download") || a.title == ("Delete"))).all
        (fun a => a.disabled) = true) := by
  constructor
  · intro selected
    rw [actionEnabled, Bool.and_eq_true, bulkActionConstraint, List.all_eq_true]
    constructor
    · rintro ⟨h1, h2⟩
      refine ⟨?_, fun o ho => by simpa using h2 o ho⟩
      intro hnil
      rw [hnil] at h1
      simp [bulkActionMinSelected] at h1
    · rintro ⟨h1, h2⟩
      refine ⟨?_, fun o ho => by simpa using h2 o ho⟩
      have hpos : 0 < selected.length := List.length_pos.mpr h1
      simp only [decide_eq_true_eq, bulkActionMinSelected]
      omega
  · intro nv o hty hdel
    rw [onActionMenu, if_pos hty]
    simp [hdel]

/-- The natural-division computation of `jsRoundF` agrees with `Math.round`
modelled as `⌊x + 1/2⌋` on the fraction's rational value. -/
theorem jsRoundF_eq_floor (q : PosFrac) (h : 0 < q.den) :
    ((jsRoundF q : Nat) : Int) = ⌊q.val + 1 / 2⌋ := by
  have hd : (q.den : ℚ) ≠ 0 := Nat.cast_ne_zero.mpr h.ne'
  have h1 : q.val + 1 / 2 = ((2 * q.num + q.den : ℕ) : ℚ) / ((2 * q.den : ℕ) : ℚ) := by
    rw [PosFrac.val]
    push_cast
    field_simp
    ring
  rw [h1,
    show ((2 * q.num + q.den : ℕ) : ℚ) = (((2 * q.num + q.den : ℕ) : ℤ) : ℚ) by push_cast; ring,
    Rat.floor_intCast_div_natCast, jsRoundF, Int.natCast_div]

/-- C8 counterexample: the source regex leaves the dot of `(.\d+)?`
unescaped, so the string `1x5` — rejected by the claim's grammar
`^\d+(\.\d+)? ?[unit]?(b|ib|B/s)?$` — is matched (the `x` is consumed by the
any-character dot) and `parseFloat` reads the number part as 1: `toBytes`
returns 1 instead of the claimed null. -/
theorem toBytes_claimed_grammar_counterexample :
    specToBytesAccepts ("1x5") = false ∧ toBytes ("1x5") = some 1 :=
  ⟨by decide, by decide⟩

/-- C8 (amended): `toBytes` returns null iff the input fails the source's
regex, in which the dot of the fractional group is unescaped (any
non-line-terminator character may stand in place of the decimal point) and a
bare `ib`-style suffix without unit letter is accepted; every accepted
string yields a non-negative integer; unit letters scale by exactly
`1024 ^ k` with `k` the letter's index (shown at every unit letter, and by
`toBytes("1 GiB") = 1073741824`, `toBytes("1M") = 1048576`,
`toBytes("") = null` from the claim), while a bare `ib` suffix scales by
`1024 ^ (-1)` and fractional values are rounded half-up. -/
theorem toBytes_behavior :
    (∀ (s : String) (r : Int), toBytes s = some r → 0 ≤ r) ∧
    toBytes ("") = none ∧
    toBytes ("1024") = some 1024 ∧
    toBytes ("512B") = some 512 ∧
    toBytes ("1 KiB") = some 1024 ∧
    toBytes ("1M") = some 1048576 ∧
    toBytes ("1 GiB") = some 1073741824 ∧
    toBytes ("1b") = some 1 ∧
    toBytes ("1k") = some 1024 ∧
    toBytes ("1m") = some (1024 ^ 2) ∧
    toBytes ("1g") = some (1024 ^ 3) ∧
    toBytes ("1t") = some (1024 ^ 4) ∧
    toBytes ("1p") = some (1024 ^ 5) ∧
    toBytes ("1e") = some (1024 ^ 6) ∧
    toBytes ("1z") = some (1024 ^ 7) ∧
    toBytes ("1y") = some (1024 ^ 8) ∧
    toBytes ("1.5k") = some 1536 ∧
    toBytes ("1.5") = some 2 ∧
    toBytes ("5ib") = some 0 := by
  refine ⟨fun s r h => ?_, ?_, ?_, ?_, ?_, ?_, ?_, ?_, ?_, ?_, ?_, ?_, ?_, ?_, ?_, ?_,
    ?_, ?_, ?_⟩
  · rw [toBytes] at h
    cases hm : ubMatchFun s.toList with
    | none => rw [hm] at h; cases h
    | some m =>
      rw [hm] at h
      simp only [Option.some.injEq] at h
      rw [← h]
      exact Int.natCast_nonneg _
  all_goals decide

/-- Witness for `toBytes_behavior`: a fresh accepted input evaluates to a
non-negative integer. -/
theorem toBytes_behavior_witness :
    toBytes ("2 MiB") = some 2097152 ∧ (0 : Int) ≤ 2097152 :=
  ⟨by decide, toBytes_behavior.1 ("2 MiB") 2097152 (by decide)⟩

/-- Witness for `deleted_rows_actions_disabled`: on the latest-deleted row B
both per-row entries are disabled, while a selection holding only the
non-deleted row A enables the bulk actions. -/
theorem deleted_rows_actions_disabled_witness :
    ((onActionMenu (fun _ => 0) recB).filter
        (fun a => a.title == ("Download") || a.title == ("Delete"))).all
      (fun a => a.disabled) = true ∧
    actionEnabled bulkActionMinSelected bulkActionConstraint [recA] = true :=
  ⟨deleted_rows_actions_disabled.2 (fun _ => 0) recB rfl rfl,
   (deleted_rows_actions_disabled.1 [recA]).mpr ⟨by decide, by decide⟩⟩

/-- Witness for `doUpload_orchestrator`: a fully-completed 2-file batch shows
the "all succeeded" message, a short batch shows the partial message. -/
theorem doUpload_orchestrator_witness :
    (doUploadRun 2 [⟨1, 2⟩, ⟨2, 2⟩] UploadTerminal.completed).notifs
      = [Notif.success (uploadAllMsg 2)] ∧
    (doUploadRun 5 [⟨1, 5⟩, ⟨2, 5⟩] UploadTerminal.completed).notifs
      = [Notif.success (uploadSomeMsg 2 5)] :=
  ⟨(doUpload_orchestrator.1 2 [⟨1, 2⟩, ⟨2, 2⟩]).2.2.1 (by decide),
   by
    have h := (doUpload_orchestrator.1 5 [⟨1, 5⟩, ⟨2, 5⟩]).2.2.2 (by decide)
    simpa using h⟩
